import Mathlib

/-!
Verification of the FFI wrapper layer of the fastfilter library
(`fastfilter_ffi_wrapper.c`) together with a model of the filter core
(the vendored single-header XOR8 / Binary-Fuse8 implementations) built
from the design document, since only the wrapper sources are available.

Keys, seeds and hashes are modelled as `Nat` reduced mod 2^64 where the
C code would overflow; 8-bit fingerprints are `Nat` values below 256;
the fingerprint table is a `List Nat`; a nullable pointer is an
`Option`; `malloc` success is an explicit boolean oracle argument.
-/

namespace FastFilter

/-- 64-bit truncation. -/
def w64 (x : Nat) : Nat := x % 2 ^ 64

/-- Modelled from the spec: 64-bit left rotation, used to draw the second
and third hash slices from one mixed value ("3 different byte slices of
one 64-bit mix plus seed rotation"). -/
def rotl64 (x r : Nat) : Nat :=
  w64 (x <<< r) ||| (x >>> (64 - r))

/-- Modelled from the spec (§4.1, the missing Hash/Fingerprint Engine):
`mix(seed, key) -> uint64`, a deterministic avalanching multiply-xor-shift
finalizer; pure function of (seed, key). -/
def mix (seed key : Nat) : Nat :=
  let z0 := w64 (key + seed)
  let z1 := w64 ((z0 ^^^ (z0 >>> 33)) * 0xff51afd7ed558ccd)
  let z2 := w64 ((z1 ^^^ (z1 >>> 33)) * 0xc4ceb9fe1a85ec53)
  z2 ^^^ (z2 >>> 33)

/-- Modelled from the spec (§4.1): the 8-bit fingerprint is an independent
byte slice of the mixed value. -/
def fingerprint (seed key : Nat) : Nat :=
  (mix seed key) >>> 56

/-!
## The generic slot-assignment solver

Modelled from the spec (§4.2, the missing Slot-Assignment Solver shared
by both filter variants).  It is parametrised by the per-key position
triple (how the three candidate slots are derived differs between the
XOR and the Binary-Fuse constructors) and by the fingerprint function.
-/

/-- A key's three candidate slots, as a triple. -/
abbrev Pos3 := Nat × Nat × Nat

/-- Whether slot `s` is one of the three positions `p` (incidence). -/
def inc (p : Pos3) (s : Nat) : Bool :=
  p.1 == s || p.2.1 == s || p.2.2 == s

/-- XOR of the three slot values addressed by `p` (out-of-range reads 0). -/
def xorAt (slots : List Nat) (p : Pos3) : Nat :=
  slots.getD p.1 0 ^^^ slots.getD p.2.1 0 ^^^ slots.getD p.2.2 0

/-- Modelled from the spec (§4.2): one peeling step — find a slot with
degree exactly 1 among the remaining keys and return that slot's sole
incident key together with the slot. -/
def peelStep (pos : Nat → Pos3) (m : Nat) (remaining : List Nat) :
    Option (Nat × Nat) :=
  match (List.range m).find? (fun s =>
      (remaining.filter (fun k => inc (pos k) s)).length == 1) with
  | none => none
  | some s =>
    match remaining.find? (fun k => inc (pos k) s) with
    | none => none
    | some k => some (k, s)

/-- Modelled from the spec (§4.2): the peeling loop, fuelled by the number
of keys still to remove; pushes (key, resolving slot) pairs in removal
order and fails when peeling stalls before removing all keys. -/
def peelAux (pos : Nat → Pos3) (m : Nat) :
    Nat → List Nat → Option (List (Nat × Nat))
  | _, [] => some []
  | 0, _ :: _ => none
  | fuel + 1, k0 :: ks =>
    match peelStep pos m (k0 :: ks) with
    | none => none
    | some (k, s) =>
      match peelAux pos m fuel ((k0 :: ks).erase k) with
      | none => none
      | some st => some ((k, s) :: st)

/-- Modelled from the spec (§4.2): full peel of a key list over a table of
size `m`; succeeds exactly when the stack ends up holding all keys. -/
def peel (pos : Nat → Pos3) (m : Nat) (keys : List Nat) :
    Option (List (Nat × Nat)) :=
  peelAux pos m keys.length keys

/-- Modelled from the spec (§4.2, assignment pass): for a resolved
(key, slot) pair set the slot's value to the key's fingerprint XOR the
two sibling slots' current values. -/
def assignOne (pos : Nat → Pos3) (fp : Nat → Nat) (slots : List Nat)
    (ks : Nat × Nat) : List Nat :=
  let p := pos ks.1
  let v := fp ks.1
    ^^^ (if p.1 = ks.2 then 0 else slots.getD p.1 0)
    ^^^ (if p.2.1 = ks.2 then 0 else slots.getD p.2.1 0)
    ^^^ (if p.2.2 = ks.2 then 0 else slots.getD p.2.2 0)
  slots.set ks.2 v

/-- Modelled from the spec (§4.2): process the resolution stack in reverse
order (last-peeled key assigned first). -/
def assignAll (pos : Nat → Pos3) (fp : Nat → Nat)
    (st : List (Nat × Nat)) (slots : List Nat) : List Nat :=
  st.foldr (fun ks acc => assignOne pos fp acc ks) slots

/-- Modelled from the spec (§4.2): a single construction attempt — peel,
then run the assignment pass over a zeroed table. -/
def tryConstruct (pos : Nat → Pos3) (fp : Nat → Nat) (m : Nat)
    (keys : List Nat) : Option (List Nat) :=
  match peel pos m keys with
  | none => none
  | some st => some (assignAll pos fp st (List.replicate m 0))

/-- Modelled from the spec (§4.2 failure policy, §9): the bounded
retry-with-fresh-seed loop, an explicit loop with an attempt counter and
early return on success. -/
def populateLoop {α : Type} (att : Nat → Option α) : Nat → Nat → Option α
  | 0, _ => none
  | fuel + 1, i =>
    match att i with
    | some a => some a
    | none => populateLoop att fuel (i + 1)

/-- Modelled from the spec (§4.2): the maximum number of construction
attempts, a small constant ≤ 100. -/
def MAX_ITERATIONS : Nat := 100

/-- Modelled from the spec (§3 Seed: "regenerated on each retry"): the
seed of attempt `i`, derived deterministically from the base seed. -/
def attemptSeed (base i : Nat) : Nat := mix base i

/-!
## XOR8 filter

Modelled from the spec (§3 Data Model, §4.3 XOR Filter Constructor,
§4.5 Query Engine, §4.6 Sizing), standing in for the missing
`xorfilter_singleheader.h` (`xor8_t`, `xor8_allocate`,
`xor8_buffered_populate`, `xor8_contain`, `xor8_size_in_bytes`).
-/

/-- Modelled from the spec (§3 Filter): {seed, table size, slot array};
the table is organised as three blocks of `blockLength` 8-bit slots. -/
structure Xor8 where
  seed : Nat
  blockLength : Nat
  fingerprints : List Nat
deriving DecidableEq

/-- Modelled from the spec (§4.3): table size m = ceil(n × 1.23) rounded
up to a multiple of 3. -/
def xor8_capacity (size : Nat) : Nat :=
  ((123 * size + 99) / 100 + 2) / 3 * 3

/-- Modelled from the spec (§4.3, §4.1): the three positions of a key,
one per third of the table, each drawn from its own slice of the mixed
value by modulo range reduction. -/
def xor8_pos (seed bl : Nat) (key : Nat) : Pos3 :=
  let h := mix seed key
  (h % bl, bl + rotl64 h 21 % bl, 2 * bl + rotl64 h 42 % bl)

/-- Modelled from the spec (§6 allocate, §7 AllocationFailure): build the
filter record with a zeroed table; the boolean oracle stands for the
success of the backing-table allocation. -/
def xor8_allocate (size : Nat) (callocOk : Bool) : Option Xor8 :=
  if callocOk then
    let m := xor8_capacity size
    some { seed := 0, blockLength := m / 3, fingerprints := List.replicate m 0 }
  else
    none

/-- Modelled from the spec (§4.2 failure policy, §4.3): construction —
up to `MAX_ITERATIONS` attempts, each with a fresh deterministic seed;
on success the filter stores the successful seed and the solved table. -/
def xor8_buffered_populate (keys : List Nat) (f : Xor8) : Option Xor8 :=
  match populateLoop (fun i =>
      match tryConstruct (xor8_pos (attemptSeed f.seed i) f.blockLength)
          (fingerprint (attemptSeed f.seed i)) (3 * f.blockLength) keys with
      | none => none
      | some slots => some (attemptSeed f.seed i, slots)) MAX_ITERATIONS 0 with
  | none => none
  | some (s, slots) =>
    some { seed := s, blockLength := f.blockLength, fingerprints := slots }

/-- Modelled from the spec (§4.5 Query Engine): recompute the three
positions and the fingerprint from the stored seed, XOR the three slot
values and compare with the fingerprint. -/
def xor8_contain (key : Nat) (f : Xor8) : Bool :=
  xorAt f.fingerprints (xor8_pos f.seed f.blockLength key)
    == fingerprint f.seed key

/-- Modelled from the spec (§4.6): header bytes of the XOR8 record
(64-bit seed and 64-bit block length). -/
def XOR8_HEADER_BYTES : Nat := 16

/-- Modelled from the spec (§4.6 Sizing): table length × 1 byte plus the
fixed header fields. -/
def xor8_size_in_bytes (f : Xor8) : Nat :=
  f.fingerprints.length + XOR8_HEADER_BYTES

/-!
## Binary Fuse8 filter

Modelled from the spec (§4.4 Binary Fuse Filter Constructor), standing in
for the missing `binaryfusefilter_singleheader.h` (`binary_fuse8_t`,
`binary_fuse8_allocate`, `binary_fuse8_populate`, `binary_fuse8_contain`,
`binary_fuse8_size_in_bytes`).
-/

/-- Modelled from the spec (§3 Filter): {seed, segment geometry, slot
array}; the table is `(segmentCount + 2) * segmentLength` slots. -/
structure Fuse8 where
  seed : Nat
  segmentLength : Nat
  segmentCount : Nat
  fingerprints : List Nat
deriving DecidableEq

/-- Floor base-2 logarithm by structural recursion on a fuel bound. -/
def log2Aux : Nat → Nat → Nat
  | 0, _ => 0
  | fuel + 1, n => if n < 2 then 0 else log2Aux fuel (n / 2) + 1

/-- Floor base-2 logarithm (`log2f n = Nat.log2 n` for every n). -/
def log2f (n : Nat) : Nat := log2Aux n n

/-- Modelled from the spec (§4.4): segment length derived from n by a
closed form; always at least 1. -/
def fuse8_segmentLength (size : Nat) : Nat :=
  2 ^ (log2f (max size 2) / 2)

/-- Modelled from the spec (§4.4): segment count from the c ≈ 1.125
capacity, at least 1. -/
def fuse8_segmentCount (size : Nat) : Nat :=
  (9 * size + 7) / 8 / fuse8_segmentLength size + 1

/-- Total table size of a Binary Fuse8 filter with the given geometry. -/
def fuse8_arraySize (sl sc : Nat) : Nat := (sc + 2) * sl

/-- Modelled from the spec (§4.4): a hash-derived segment window start
plus three positions at offsets within one sub-window each. -/
def fuse8_pos (seed sl sc : Nat) (key : Nat) : Pos3 :=
  let h := mix seed key
  let w := (h >>> 48) % sc
  (w * sl + h % sl,
   (w + 1) * sl + rotl64 h 21 % sl,
   (w + 2) * sl + rotl64 h 42 % sl)

/-- Modelled from the spec (§6 allocate, §7 AllocationFailure): build the
Binary Fuse8 record with a zeroed table; the boolean oracle stands for
the success of the backing-table allocation. -/
def binary_fuse8_allocate (size : Nat) (callocOk : Bool) : Option Fuse8 :=
  if callocOk then
    let sl := fuse8_segmentLength size
    let sc := fuse8_segmentCount size
    some { seed := 0, segmentLength := sl, segmentCount := sc,
           fingerprints := List.replicate (fuse8_arraySize sl sc) 0 }
  else
    none

/-- Modelled from the spec (§4.4, §4.2 failure policy): same bounded
retry construction as the XOR filter, over segment-local positions. -/
def binary_fuse8_populate (keys : List Nat) (f : Fuse8) : Option Fuse8 :=
  match populateLoop (fun i =>
      match tryConstruct
          (fuse8_pos (attemptSeed f.seed i) f.segmentLength f.segmentCount)
          (fingerprint (attemptSeed f.seed i))
          (fuse8_arraySize f.segmentLength f.segmentCount) keys with
      | none => none
      | some slots => some (attemptSeed f.seed i, slots)) MAX_ITERATIONS 0 with
  | none => none
  | some (s, slots) =>
    some { seed := s, segmentLength := f.segmentLength,
           segmentCount := f.segmentCount, fingerprints := slots }

/-- Modelled from the spec (§4.5 Query Engine): same decision as the XOR
filter over the segment-local positions. -/
def binary_fuse8_contain (key : Nat) (f : Fuse8) : Bool :=
  xorAt f.fingerprints (fuse8_pos f.seed f.segmentLength f.segmentCount key)
    == fingerprint f.seed key

/-- Modelled from the spec (§4.6): header bytes of the Binary Fuse8
record (64-bit seed, segment length, segment count). -/
def FUSE8_HEADER_BYTES : Nat := 24

/-- Modelled from the spec (§4.6 Sizing): table length × 1 byte plus the
fixed header fields. -/
def binary_fuse8_size_in_bytes (f : Fuse8) : Nat :=
  f.fingerprints.length + FUSE8_HEADER_BYTES

/-!
## The FFI wrapper layer (embedded from `fastfilter_ffi_wrapper.c`)

A `void*` handle is an `Option` (null = `none`); the `keys` array is an
`Option (List Nat)`; the success of `malloc(sizeof(...))` for the handle
struct is an explicit boolean oracle.  `populate` mutates the filter in
place in C, so the embedding returns the success flag together with the
handle's new contents.  `free` releases a handle from a set of live
filters.
-/

/-- `xor8_allocate_wrapper` (fastfilter_ffi_wrapper.c:21-32): null on
handle-malloc failure; null (after freeing the handle) when
`xor8_allocate` fails; otherwise the filter. -/
def xor8_allocate_wrapper (size : Nat) (mallocOk callocOk : Bool) :
    Option Xor8 :=
  if mallocOk then
    match xor8_allocate size callocOk with
    | none => none
    | some f => some f
  else
    none

/-- `xor8_populate_wrapper` (fastfilter_ffi_wrapper.c:42-48): false on
null handle or null key array, otherwise the result of
`xor8_buffered_populate` on the same keys. -/
def xor8_populate_wrapper (h : Option Xor8) (keys : Option (List Nat)) :
    Bool × Option Xor8 :=
  match h, keys with
  | none, _ => (false, h)
  | _, none => (false, h)
  | some f, some ks =>
    match xor8_buffered_populate ks f with
    | none => (false, some f)
    | some f2 => (true, some f2)

/-- `xor8_contain_wrapper` (fastfilter_ffi_wrapper.c:57-63): false on a
null handle, otherwise `xor8_contain`. -/
def xor8_contain_wrapper (h : Option Xor8) (key : Nat) : Bool :=
  match h with
  | none => false
  | some f => xor8_contain key f

/-- `xor8_free_wrapper` (fastfilter_ffi_wrapper.c:70-77): no-op on a null
handle, otherwise releases the filter from the live set. -/
def xor8_free_wrapper (h : Option Xor8) (live : List Xor8) : List Xor8 :=
  match h with
  | none => live
  | some f => live.erase f

/-- `xor8_size_in_bytes_wrapper` (fastfilter_ffi_wrapper.c:85-91): 0 on a
null handle, otherwise `xor8_size_in_bytes`. -/
def xor8_size_in_bytes_wrapper (h : Option Xor8) : Nat :=
  match h with
  | none => 0
  | some f => xor8_size_in_bytes f

/-- `binary_fuse8_allocate_wrapper` (fastfilter_ffi_wrapper.c:103-114). -/
def binary_fuse8_allocate_wrapper (size : Nat) (mallocOk callocOk : Bool) :
    Option Fuse8 :=
  if mallocOk then
    match binary_fuse8_allocate size callocOk with
    | none => none
    | some f => some f
  else
    none

/-- `binary_fuse8_populate_wrapper` (fastfilter_ffi_wrapper.c:124-130). -/
def binary_fuse8_populate_wrapper (h : Option Fuse8)
    (keys : Option (List Nat)) : Bool × Option Fuse8 :=
  match h, keys with
  | none, _ => (false, h)
  | _, none => (false, h)
  | some f, some ks =>
    match binary_fuse8_populate ks f with
    | none => (false, some f)
    | some f2 => (true, some f2)

/-- `binary_fuse8_contain_wrapper` (fastfilter_ffi_wrapper.c:139-145). -/
def binary_fuse8_contain_wrapper (h : Option Fuse8) (key : Nat) : Bool :=
  match h with
  | none => false
  | some f => binary_fuse8_contain key f

/-- `binary_fuse8_free_wrapper` (fastfilter_ffi_wrapper.c:152-159). -/
def binary_fuse8_free_wrapper (h : Option Fuse8) (live : List Fuse8) :
    List Fuse8 :=
  match h with
  | none => live
  | some f => live.erase f

/-- `binary_fuse8_size_in_bytes_wrapper` (fastfilter_ffi_wrapper.c:167-173). -/
def binary_fuse8_size_in_bytes_wrapper (h : Option Fuse8) : Nat :=
  match h with
  | none => 0
  | some f => binary_fuse8_size_in_bytes f

/-!
## Auxiliary notions for the verification
-/

/-- A position triple is valid for table size `m`: in range and pairwise
distinct ("three pairwise-distinct positions", §4.3). -/
def ValidPos (m : Nat) (p : Pos3) : Prop :=
  p.1 < m ∧ p.2.1 < m ∧ p.2.2 < m ∧
    p.1 ≠ p.2.1 ∧ p.1 ≠ p.2.2 ∧ p.2.1 ≠ p.2.2

/-- The invariant of a resolution stack produced by peeling: each entry's
resolving slot is one of its key's positions and is incident to no key
peeled later (the keys still remaining when it was resolved). -/
inductive PeelOrder (pos : Nat → Pos3) : List (Nat × Nat) → Prop where
  | nil : PeelOrder pos []
  | cons {k s : Nat} {st : List (Nat × Nat)} :
      inc (pos k) s = true →
      (∀ q ∈ st, inc (pos q.1) s = false) →
      PeelOrder pos st →
      PeelOrder pos ((k, s) :: st)

/-- The null-check shape shared by both contain wrappers, abstracted
over the underlying contain routine. -/
def containG {α : Type} (core : α → Nat → Bool) (h : Option α)
    (key : Nat) : Bool :=
  match h with
  | none => false
  | some f => core f key

/-- The null-check shape shared by both size wrappers, abstracted over
the underlying size routine. -/
def sizeG {α : Type} (core : α → Nat) (h : Option α) : Nat :=
  match h with
  | none => 0
  | some f => core f

/-- The null-check shape shared by both free wrappers, abstracted over
the live-filter set. -/
def freeG {α : Type} [DecidableEq α] (h : Option α) (live : List α) :
    List α :=
  match h with
  | none => live
  | some f => live.erase f

/-- A read-only query operation on a populated filter. -/
inductive QOp : Type where
  | qcontain (key : Nat) : QOp
  | qsize : QOp

/-- `xor8_contain` as a state transformer: the C routine reads the filter
and returns it unchanged (it takes the filter by pointer and performs no
store through it). -/
def xor8_contain_st (f : Xor8) (key : Nat) : Bool × Xor8 :=
  (xor8_contain key f, f)

/-- `xor8_size_in_bytes` as a state transformer. -/
def xor8_size_st (f : Xor8) : Nat × Xor8 :=
  (xor8_size_in_bytes f, f)

/-- Run a sequence of query operations against an XOR8 filter, threading
the filter state through. -/
def xor8_runOps (f : Xor8) (ops : List QOp) : Xor8 :=
  ops.foldl (fun s op =>
    match op with
    | QOp.qcontain k => (xor8_contain_st s k).2
    | QOp.qsize => (xor8_size_st s).2) f

/-- `binary_fuse8_contain` as a state transformer. -/
def binary_fuse8_contain_st (f : Fuse8) (key : Nat) : Bool × Fuse8 :=
  (binary_fuse8_contain key f, f)

/-- `binary_fuse8_size_in_bytes` as a state transformer. -/
def binary_fuse8_size_st (f : Fuse8) : Nat × Fuse8 :=
  (binary_fuse8_size_in_bytes f, f)

/-- Run a sequence of query operations against a Binary Fuse8 filter. -/
def binary_fuse8_runOps (f : Fuse8) (ops : List QOp) : Fuse8 :=
  ops.foldl (fun s op =>
    match op with
    | QOp.qcontain k => (binary_fuse8_contain_st s k).2
    | QOp.qsize => (binary_fuse8_size_st s).2) f

/-!
## Lemmas: list access and XOR algebra
-/

theorem getD_set_self (l : List Nat) (i v : Nat) (h : i < l.length) :
    (l.set i v).getD i 0 = v := by
  rw [List.getD_eq_getElem?_getD, List.getElem?_set_eq_of_lt _ h]
  rfl

theorem getD_set_ne (l : List Nat) {i j : Nat} (v : Nat) (h : i ≠ j) :
    (l.set i v).getD j 0 = l.getD j 0 := by
  rw [List.getD_eq_getElem?_getD, List.getElem?_set_ne h,
    ← List.getD_eq_getElem?_getD]

theorem xor_cancel_left (a b : Nat) : a ^^^ (a ^^^ b) = b := by
  rw [← Nat.xor_assoc, Nat.xor_self, Nat.zero_xor]

theorem xor_left_comm (a b c : Nat) : a ^^^ (b ^^^ c) = b ^^^ (a ^^^ c) := by
  rw [← Nat.xor_assoc, Nat.xor_comm a b, Nat.xor_assoc]

theorem xor_quad_a (x a b : Nat) : x ^^^ a ^^^ b ^^^ a ^^^ b = x := by
  simp [Nat.xor_assoc, Nat.xor_comm, xor_left_comm, xor_cancel_left,
    Nat.xor_self, Nat.xor_zero, Nat.zero_xor]

theorem xor_quad_b (x a c : Nat) : a ^^^ (x ^^^ a ^^^ c) ^^^ c = x := by
  simp [Nat.xor_assoc, Nat.xor_comm, xor_left_comm, xor_cancel_left,
    Nat.xor_self, Nat.xor_zero, Nat.zero_xor]

theorem xor_quad_c (x a b : Nat) : a ^^^ b ^^^ (x ^^^ a ^^^ b) = x := by
  simp [Nat.xor_assoc, Nat.xor_comm, xor_left_comm, xor_cancel_left,
    Nat.xor_self, Nat.xor_zero, Nat.zero_xor]

theorem inc_false_iff {p : Pos3} {s : Nat} :
    inc p s = false ↔ p.1 ≠ s ∧ p.2.1 ≠ s ∧ p.2.2 ≠ s := by
  simp [inc, and_assoc]

theorem xorAt_set_of_not_inc {p : Pos3} {s : Nat} (v : Nat)
    (slots : List Nat) (h : inc p s = false) :
    xorAt (slots.set s v) p = xorAt slots p := by
  obtain ⟨h1, h2, h3⟩ := inc_false_iff.mp h
  unfold xorAt
  rw [getD_set_ne slots v (Ne.symm h1), getD_set_ne slots v (Ne.symm h2),
    getD_set_ne slots v (Ne.symm h3)]

/-!
## Lemmas: soundness of the peeling solver
-/

theorem peelStep_sound {pos : Nat → Pos3} {m : Nat} {rem : List Nat}
    {k s : Nat} (h : peelStep pos m rem = some (k, s)) :
    k ∈ rem ∧ inc (pos k) s = true ∧
      ∀ x ∈ rem.erase k, inc (pos x) s = false := by
  unfold peelStep at h
  cases hfind : (List.range m).find? (fun s =>
      (rem.filter (fun k => inc (pos k) s)).length == 1) with
  | none => simp only [hfind] at h; exact Option.noConfusion h
  | some s0 =>
    simp only [hfind] at h
    cases hfk : rem.find? (fun k => inc (pos k) s0) with
    | none => simp only [hfk] at h; exact Option.noConfusion h
    | some k0 =>
      simp only [hfk] at h
      obtain ⟨rfl, rfl⟩ : k0 = k ∧ s0 = s := by simpa using h
      have hmem : k0 ∈ rem := List.mem_of_find?_eq_some hfk
      have hinc : inc (pos k0) s0 = true := by
        simpa using List.find?_some hfk
      refine ⟨hmem, hinc, ?_⟩
      have hlen : (rem.filter (fun x => inc (pos x) s0)).length = 1 := by
        have := List.find?_some hfind
        simpa using this
      have hperm : rem.Perm (k0 :: rem.erase k0) := List.perm_cons_erase hmem
      have hpf := hperm.filter (fun x => inc (pos x) s0)
      have hcons : List.filter (fun x => inc (pos x) s0) (k0 :: rem.erase k0)
          = k0 :: List.filter (fun x => inc (pos x) s0) (rem.erase k0) :=
        List.filter_cons_of_pos (by simpa using hinc)
      rw [hcons] at hpf
      have hlen2 := hpf.length_eq
      rw [hlen, List.length_cons] at hlen2
      have hnil : (rem.erase k0).filter (fun x => inc (pos x) s0) = [] :=
        List.length_eq_zero.mp (by omega)
      intro x hx
      have := List.filter_eq_nil_iff.mp hnil x hx
      simpa using this

theorem peelAux_sound {pos : Nat → Pos3} {m : Nat} :
    ∀ (fuel : Nat) (rem : List Nat) (st : List (Nat × Nat)),
      peelAux pos m fuel rem = some st →
      PeelOrder pos st ∧ (st.map Prod.fst).Perm rem := by
  intro fuel
  induction fuel with
  | zero =>
    intro rem st h
    cases rem with
    | nil =>
      obtain rfl : st = [] := by simpa [peelAux] using h.symm
      exact ⟨PeelOrder.nil, by simp⟩
    | cons a l => simp [peelAux] at h
  | succ fuel ih =>
    intro rem st h
    cases rem with
    | nil =>
      obtain rfl : st = [] := by simpa [peelAux] using h.symm
      exact ⟨PeelOrder.nil, by simp⟩
    | cons k0 ks =>
      rw [peelAux] at h
      cases hstep : peelStep pos m (k0 :: ks) with
      | none => simp only [hstep] at h; exact Option.noConfusion h
      | some pr =>
        obtain ⟨k, s⟩ := pr
        simp only [hstep] at h
        cases hrec : peelAux pos m fuel ((k0 :: ks).erase k) with
        | none => simp only [hrec] at h; exact Option.noConfusion h
        | some st2 =>
          simp only [hrec] at h
          obtain rfl : st = (k, s) :: st2 := by simpa using h.symm
          obtain ⟨hmem, hinc, hrest⟩ := peelStep_sound hstep
          obtain ⟨horder, hperm⟩ := ih _ _ hrec
          constructor
          · refine PeelOrder.cons hinc ?_ horder
            intro q hq
            exact hrest _ (hperm.mem_iff.mp
              (List.mem_map_of_mem Prod.fst hq))
          · rw [List.map_cons]
            exact ((hperm.cons k).trans (List.perm_cons_erase hmem).symm)

/-!
## Lemmas: correctness of the assignment pass
-/

theorem assignOne_length (pos : Nat → Pos3) (fp : Nat → Nat)
    (slots : List Nat) (ks : Nat × Nat) :
    (assignOne pos fp slots ks).length = slots.length := by
  simp [assignOne]

theorem assignAll_length (pos : Nat → Pos3) (fp : Nat → Nat)
    (st : List (Nat × Nat)) (slots : List Nat) :
    (assignAll pos fp st slots).length = slots.length := by
  induction st with
  | nil => rfl
  | cons q st ih =>
    show (assignOne pos fp (assignAll pos fp st slots) q).length = _
    rw [assignOne_length, ih]

theorem assignOne_xorAt_self (pos : Nat → Pos3) (fp : Nat → Nat)
    (slots : List Nat) (k s : Nat)
    (hinc : inc (pos k) s = true)
    (hval : ValidPos slots.length (pos k)) :
    xorAt (assignOne pos fp slots (k, s)) (pos k) = fp k := by
  rcases hp : pos k with ⟨a, b, c⟩
  rw [hp] at hval hinc
  obtain ⟨ha, hb, hc, hab, hac, hbc⟩ := hval
  have hcases : a = s ∨ b = s ∨ c = s := by
    simpa [inc, or_assoc] using hinc
  unfold assignOne xorAt
  rw [hp]
  simp only
  rcases hcases with rfl | rfl | rfl
  · rw [if_pos rfl, if_neg (Ne.symm hab), if_neg (Ne.symm hac),
      getD_set_self _ _ _ ha, getD_set_ne _ _ hab, getD_set_ne _ _ hac,
      Nat.xor_zero]
    exact xor_quad_a _ _ _
  · rw [if_neg hab, if_pos rfl, if_neg (Ne.symm hbc),
      getD_set_ne _ _ (Ne.symm hab), getD_set_self _ _ _ hb,
      getD_set_ne _ _ hbc, Nat.xor_zero]
    exact xor_quad_b _ _ _
  · rw [if_neg hac, if_neg hbc, if_pos rfl,
      getD_set_ne _ _ (Ne.symm hac), getD_set_ne _ _ (Ne.symm hbc),
      getD_set_self _ _ _ hc, Nat.xor_zero]
    exact xor_quad_c _ _ _

theorem assignAll_correct (pos : Nat → Pos3) (fp : Nat → Nat)
    {st : List (Nat × Nat)} (slots : List Nat)
    (hord : PeelOrder pos st) :
    (∀ q ∈ st, ValidPos slots.length (pos q.1)) →
    ∀ q ∈ st, xorAt (assignAll pos fp st slots) (pos q.1) = fp q.1 := by
  induction hord with
  | nil => intro _ q hq; simp at hq
  | @cons k s st hinc hni hord ih =>
    intro hval q hq
    have hAA : assignAll pos fp ((k, s) :: st) slots
        = assignOne pos fp (assignAll pos fp st slots) (k, s) := rfl
    have hlen := assignAll_length pos fp st slots
    rcases List.mem_cons.mp hq with hqe | hq2
    · subst hqe
      rw [hAA]
      exact assignOne_xorAt_self pos fp _ k s hinc
        (by rw [hlen]; exact hval (k, s) (List.mem_cons_self _ _))
    · rw [hAA]
      have hstep : xorAt (assignOne pos fp (assignAll pos fp st slots) (k, s))
          (pos q.1) = xorAt (assignAll pos fp st slots) (pos q.1) := by
        simp only [assignOne]
        exact xorAt_set_of_not_inc _ _ (hni q hq2)
      rw [hstep]
      exact ih (fun r hr => hval r (List.mem_cons_of_mem _ hr)) q hq2

theorem tryConstruct_correct {pos : Nat → Pos3} {fp : Nat → Nat} {m : Nat}
    {keys : List Nat} {slots : List Nat}
    (h : tryConstruct pos fp m keys = some slots)
    (hval : ∀ k ∈ keys, ValidPos m (pos k)) :
    slots.length = m ∧ ∀ k ∈ keys, xorAt slots (pos k) = fp k := by
  unfold tryConstruct at h
  cases hpeel : peel pos m keys with
  | none => simp only [hpeel] at h; exact Option.noConfusion h
  | some st =>
    simp only [hpeel] at h
    obtain rfl : slots = assignAll pos fp st (List.replicate m 0) := by
      simpa using h.symm
    obtain ⟨hord, hperm⟩ := peelAux_sound keys.length keys st hpeel
    have hlen0 : (List.replicate m (0 : Nat)).length = m :=
      List.length_replicate m 0
    have hval2 : ∀ q ∈ st,
        ValidPos (List.replicate m (0 : Nat)).length (pos q.1) := by
      intro q hq
      rw [hlen0]
      exact hval q.1 (hperm.mem_iff.mp (List.mem_map_of_mem Prod.fst hq))
    constructor
    · rw [assignAll_length, hlen0]
    · intro k hk
      have hk2 : k ∈ st.map Prod.fst := hperm.mem_iff.mpr hk
      obtain ⟨q, hq, hqk⟩ := List.mem_map.mp hk2
      have := assignAll_correct pos fp _ hord hval2 q hq
      rwa [hqk] at this

/-!
## Lemmas: the bounded retry loop
-/

theorem populateLoop_some_ex {α : Type} (att : Nat → Option α) :
    ∀ (fuel i : Nat) (a : α), populateLoop att fuel i = some a →
      ∃ j, att j = some a := by
  intro fuel
  induction fuel with
  | zero => intro i a h; simp [populateLoop] at h
  | succ fuel ih =>
    intro i a h
    rw [populateLoop] at h
    cases hi : att i with
    | some b =>
      simp only [hi] at h
      exact ⟨i, hi.trans h⟩
    | none =>
      simp only [hi] at h
      exact ih _ _ h

theorem populateLoop_none_iff {α : Type} (att : Nat → Option α) :
    ∀ (fuel i : Nat), populateLoop att fuel i = none ↔
      ∀ j < fuel, att (i + j) = none := by
  intro fuel
  induction fuel with
  | zero => intro i; simp [populateLoop]
  | succ fuel ih =>
    intro i
    constructor
    · intro h j hj
      rw [populateLoop] at h
      cases hi : att i with
      | some b => simp only [hi] at h; exact Option.noConfusion h
      | none =>
        simp only [hi] at h
        rcases Nat.eq_zero_or_pos j with rfl | hpos
        · simpa using hi
        · have h2 := (ih (i + 1)).mp h (j - 1) (by omega)
          have heq : i + 1 + (j - 1) = i + j := by omega
          rwa [heq] at h2
    · intro h
      have h0 : att i = none := by simpa using h 0 (by omega)
      rw [populateLoop]
      simp only [h0]
      refine (ih (i + 1)).mpr ?_
      intro j hj
      have h2 := h (j + 1) (by omega)
      have heq : i + 1 + j = i + (j + 1) := by omega
      rwa [heq]

/-!
## Lemmas: validity of the derived positions
-/

theorem seg_mono {a b sl : Nat} (o o2 : Nat) (ho : o < sl) (hab : a < b) :
    a * sl + o < b * sl + o2 := by
  have h1 : (a + 1) * sl = a * sl + sl := Nat.succ_mul a sl
  have h2 : (a + 1) * sl ≤ b * sl := Nat.mul_le_mul_right sl (by omega)
  omega

theorem seg_bound {a sc sl : Nat} (o : Nat) (ho : o < sl)
    (ha : a + 1 ≤ sc + 2) : a * sl + o < (sc + 2) * sl := by
  have h1 : (a + 1) * sl = a * sl + sl := Nat.succ_mul a sl
  have h2 : (a + 1) * sl ≤ (sc + 2) * sl := Nat.mul_le_mul_right sl ha
  omega

theorem xor8_pos_valid (seed bl : Nat) (hbl : 0 < bl) (key : Nat) :
    ValidPos (3 * bl) (xor8_pos seed bl key) := by
  have h0 : mix seed key % bl < bl := Nat.mod_lt _ hbl
  have h1 : rotl64 (mix seed key) 21 % bl < bl := Nat.mod_lt _ hbl
  have h2 : rotl64 (mix seed key) 42 % bl < bl := Nat.mod_lt _ hbl
  unfold xor8_pos ValidPos
  simp only
  refine ⟨by omega, by omega, by omega, by omega, by omega, by omega⟩

theorem fuse8_pos_valid (seed sl sc : Nat) (hsl : 0 < sl) (hsc : 0 < sc)
    (key : Nat) :
    ValidPos (fuse8_arraySize sl sc) (fuse8_pos seed sl sc key) := by
  have hw : (mix seed key >>> 48) % sc < sc := Nat.mod_lt _ hsc
  have h0 : mix seed key % sl < sl := Nat.mod_lt _ hsl
  have h1 : rotl64 (mix seed key) 21 % sl < sl := Nat.mod_lt _ hsl
  have h2 : rotl64 (mix seed key) 42 % sl < sl := Nat.mod_lt _ hsl
  unfold fuse8_pos fuse8_arraySize ValidPos
  simp only
  refine ⟨seg_bound _ h0 (by omega), seg_bound _ h1 (by omega),
    seg_bound _ h2 (by omega),
    Nat.ne_of_lt (seg_mono _ _ h0 (by omega)),
    Nat.ne_of_lt ?_, Nat.ne_of_lt (seg_mono _ _ h1 (by omega))⟩
  calc (mix seed key >>> 48) % sc * sl + mix seed key % sl
      < ((mix seed key >>> 48) % sc + 1) * sl + rotl64 (mix seed key) 42 % sl :=
        seg_mono _ _ h0 (by omega)
    _ ≤ ((mix seed key >>> 48) % sc + 2) * sl + rotl64 (mix seed key) 42 % sl := by
        have := Nat.mul_le_mul_right (n := (mix seed key >>> 48) % sc + 1)
          (m := (mix seed key >>> 48) % sc + 2) sl (by omega)
        omega

/-- Peeling a nonempty key list over an empty table always fails. -/
theorem peel_zero_nonempty (pos : Nat → Pos3) (k : Nat) (ks : List Nat) :
    peel pos 0 (k :: ks) = none := by
  have hstep : peelStep pos 0 (k :: ks) = none := by
    simp [peelStep]
  show peelAux pos 0 (k :: ks).length (k :: ks) = none
  rw [List.length_cons, peelAux]
  simp only [hstep]

/-!
## Per-variant construction correctness
-/

theorem xor8_populate_sound {f f2 : Xor8} {keys : List Nat}
    (hpop : xor8_buffered_populate keys f = some f2) :
    ∀ k ∈ keys, xor8_contain k f2 = true := by
  unfold xor8_buffered_populate at hpop
  cases hloop : populateLoop (fun i =>
      match tryConstruct (xor8_pos (attemptSeed f.seed i) f.blockLength)
          (fingerprint (attemptSeed f.seed i)) (3 * f.blockLength) keys with
      | none => none
      | some slots => some (attemptSeed f.seed i, slots)) MAX_ITERATIONS 0 with
  | none => simp only [hloop] at hpop; exact Option.noConfusion hpop
  | some pr =>
    obtain ⟨s, slots⟩ := pr
    simp only [hloop] at hpop
    obtain rfl : f2 = Xor8.mk s f.blockLength slots := by
      simpa using hpop.symm
    obtain ⟨j, hj⟩ := populateLoop_some_ex _ _ _ _ hloop
    cases htry : tryConstruct (xor8_pos (attemptSeed f.seed j) f.blockLength)
        (fingerprint (attemptSeed f.seed j)) (3 * f.blockLength) keys with
    | none => simp only [htry] at hj; exact Option.noConfusion hj
    | some slots2 =>
      simp only [htry] at hj
      obtain ⟨rfl, rfl⟩ : attemptSeed f.seed j = s ∧ slots2 = slots := by
        simpa using hj
      intro k hk
      rcases Nat.eq_zero_or_pos f.blockLength with hbl | hbl
      · exfalso
        cases keys with
        | nil => exact List.not_mem_nil k hk
        | cons k0 ks =>
          rw [tryConstruct, hbl, Nat.mul_zero, peel_zero_nonempty] at htry
          exact Option.noConfusion htry
      · have hval : ∀ x ∈ keys, ValidPos (3 * f.blockLength)
            (xor8_pos (attemptSeed f.seed j) f.blockLength x) :=
          fun x _ => xor8_pos_valid _ _ hbl x
        obtain ⟨hlen, hxor⟩ := tryConstruct_correct htry hval
        unfold xor8_contain
        simp only
        rw [hxor k hk]
        exact beq_self_eq_true _

theorem fuse8_populate_sound {f f2 : Fuse8} {keys : List Nat}
    (hsl : 0 < f.segmentLength) (hsc : 0 < f.segmentCount)
    (hpop : binary_fuse8_populate keys f = some f2) :
    ∀ k ∈ keys, binary_fuse8_contain k f2 = true := by
  unfold binary_fuse8_populate at hpop
  cases hloop : populateLoop (fun i =>
      match tryConstruct
          (fuse8_pos (attemptSeed f.seed i) f.segmentLength f.segmentCount)
          (fingerprint (attemptSeed f.seed i))
          (fuse8_arraySize f.segmentLength f.segmentCount) keys with
      | none => none
      | some slots => some (attemptSeed f.seed i, slots)) MAX_ITERATIONS 0 with
  | none => simp only [hloop] at hpop; exact Option.noConfusion hpop
  | some pr =>
    obtain ⟨s, slots⟩ := pr
    simp only [hloop] at hpop
    obtain rfl : f2 = Fuse8.mk s f.segmentLength f.segmentCount slots := by
      simpa using hpop.symm
    obtain ⟨j, hj⟩ := populateLoop_some_ex _ _ _ _ hloop
    cases htry : tryConstruct
        (fuse8_pos (attemptSeed f.seed j) f.segmentLength f.segmentCount)
        (fingerprint (attemptSeed f.seed j))
        (fuse8_arraySize f.segmentLength f.segmentCount) keys with
    | none => simp only [htry] at hj; exact Option.noConfusion hj
    | some slots2 =>
      simp only [htry] at hj
      obtain ⟨rfl, rfl⟩ : attemptSeed f.seed j = s ∧ slots2 = slots := by
        simpa using hj
      intro k hk
      have hval : ∀ x ∈ keys,
          ValidPos (fuse8_arraySize f.segmentLength f.segmentCount)
            (fuse8_pos (attemptSeed f.seed j) f.segmentLength
              f.segmentCount x) :=
        fun x _ => fuse8_pos_valid _ _ _ hsl hsc x
      obtain ⟨hlen, hxor⟩ := tryConstruct_correct htry hval
      unfold binary_fuse8_contain
      simp only
      rw [hxor k hk]
      exact beq_self_eq_true _

theorem fuse8_segmentLength_pos (size : Nat) : 0 < fuse8_segmentLength size :=
  Nat.pos_pow_of_pos _ (by omega)

theorem fuse8_segmentCount_pos (size : Nat) : 0 < fuse8_segmentCount size :=
  Nat.succ_pos _

theorem xor8_allocate_wrapper_some {size : Nat} {mOk cOk : Bool} {f : Xor8}
    (h : xor8_allocate_wrapper size mOk cOk = some f) :
    f = Xor8.mk 0 (xor8_capacity size / 3) (List.replicate (xor8_capacity size) 0) := by
  cases mOk <;> cases cOk <;>
    simp [xor8_allocate_wrapper, xor8_allocate] at h <;> simp [h.symm]

theorem binary_fuse8_allocate_wrapper_some {size : Nat} {mOk cOk : Bool}
    {f : Fuse8} (h : binary_fuse8_allocate_wrapper size mOk cOk = some f) :
    f = Fuse8.mk 0 (fuse8_segmentLength size) (fuse8_segmentCount size)
      (List.replicate
        (fuse8_arraySize (fuse8_segmentLength size) (fuse8_segmentCount size))
        0) := by
  cases mOk <;> cases cOk <;>
    simp [binary_fuse8_allocate_wrapper, binary_fuse8_allocate] at h <;>
    simp [h.symm]

theorem xor8_populate_wrapper_true {f f2 : Xor8} {keys : List Nat}
    (h : xor8_populate_wrapper (some f) (some keys) = (true, some f2)) :
    xor8_buffered_populate keys f = some f2 := by
  unfold xor8_populate_wrapper at h
  cases hcore : xor8_buffered_populate keys f with
  | none => simp only [hcore] at h; simp at h
  | some f3 =>
    simp only [hcore] at h
    simpa using congrArg Prod.snd h

theorem binary_fuse8_populate_wrapper_true {f f2 : Fuse8} {keys : List Nat}
    (h : binary_fuse8_populate_wrapper (some f) (some keys) = (true, some f2)) :
    binary_fuse8_populate keys f = some f2 := by
  unfold binary_fuse8_populate_wrapper at h
  cases hcore : binary_fuse8_populate keys f with
  | none => simp only [hcore] at h; simp at h
  | some f3 =>
    simp only [hcore] at h
    simpa using congrArg Prod.snd h

/-!
## The claims
-/

/-- C1: for every key set successfully populated into a filter (xor8 or
binary_fuse8) obtained from allocate, and for every key in that set, a
subsequent contain call on that filter returns true — no false
negatives, unconditionally. -/
theorem claim_C1_no_false_negatives :
    (∀ (size : Nat) (mOk cOk : Bool) (f f2 : Xor8) (keys : List Nat)
        (k : Nat),
      xor8_allocate_wrapper size mOk cOk = some f →
      xor8_populate_wrapper (some f) (some keys) = (true, some f2) →
      k ∈ keys →
      xor8_contain_wrapper (some f2) k = true) ∧
    (∀ (size : Nat) (mOk cOk : Bool) (f f2 : Fuse8) (keys : List Nat)
        (k : Nat),
      binary_fuse8_allocate_wrapper size mOk cOk = some f →
      binary_fuse8_populate_wrapper (some f) (some keys) = (true, some f2) →
      k ∈ keys →
      binary_fuse8_contain_wrapper (some f2) k = true) := by
  constructor
  · intro size mOk cOk f f2 keys k _ hpop hk
    exact xor8_populate_sound (xor8_populate_wrapper_true hpop) k hk
  · intro size mOk cOk f f2 keys k halloc hpop hk
    have hf := binary_fuse8_allocate_wrapper_some halloc
    have hsl : 0 < f.segmentLength := by
      rw [hf]; exact fuse8_segmentLength_pos size
    have hsc : 0 < f.segmentCount := by
      rw [hf]; exact fuse8_segmentCount_pos size
    exact fuse8_populate_sound hsl hsc
      (binary_fuse8_populate_wrapper_true hpop) k hk

/-- C1 witness: a concrete allocate/populate/contain round trip for both
variants, instantiating the theorem. -/
theorem claim_C1_witness :
    xor8_contain_wrapper
        (some (Xor8.mk 12994781566227106604 2 [253, 217, 49, 0, 0, 0])) 10
      = true ∧
    binary_fuse8_contain_wrapper
        (some (Fuse8.mk 4233148493373801447 1 5 [31, 27, 0, 0, 18, 0, 0])) 10
      = true :=
  ⟨claim_C1_no_false_negatives.1 3 true true
      (Xor8.mk 0 2 [0, 0, 0, 0, 0, 0])
      (Xor8.mk 12994781566227106604 2 [253, 217, 49, 0, 0, 0])
      [10, 20, 30] 10 (by decide) (by decide) (by decide),
   claim_C1_no_false_negatives.2 3 true true
      (Fuse8.mk 0 1 5 [0, 0, 0, 0, 0, 0, 0])
      (Fuse8.mk 4233148493373801447 1 5 [31, 27, 0, 0, 18, 0, 0])
      [10, 20, 30] 10 (by decide) (by decide) (by decide)⟩

/-- C2: for every filter and key, contain recomputes the key's three
slot positions and 8-bit fingerprint from the filter's stored seed, XORs
the three stored slot values, and returns true exactly when that XOR
equals the fingerprint, false otherwise. -/
theorem claim_C2_contain_equation :
    (∀ (f : Xor8) (key : Nat),
      (xor8_contain_wrapper (some f) key = true ↔
        xorAt f.fingerprints (xor8_pos f.seed f.blockLength key)
          = fingerprint f.seed key) ∧
      (xor8_contain_wrapper (some f) key = false ↔
        xorAt f.fingerprints (xor8_pos f.seed f.blockLength key)
          ≠ fingerprint f.seed key)) ∧
    (∀ (f : Fuse8) (key : Nat),
      (binary_fuse8_contain_wrapper (some f) key = true ↔
        xorAt f.fingerprints
            (fuse8_pos f.seed f.segmentLength f.segmentCount key)
          = fingerprint f.seed key) ∧
      (binary_fuse8_contain_wrapper (some f) key = false ↔
        xorAt f.fingerprints
            (fuse8_pos f.seed f.segmentLength f.segmentCount key)
          ≠ fingerprint f.seed key)) := by
  constructor
  · intro f key
    constructor
    · simp [xor8_contain_wrapper, xor8_contain]
    · simp [xor8_contain_wrapper, xor8_contain]
  · intro f key
    constructor
    · simp [binary_fuse8_contain_wrapper, binary_fuse8_contain]
    · simp [binary_fuse8_contain_wrapper, binary_fuse8_contain]

/-- C2 witness: the equation decided at a concrete filter and key. -/
theorem claim_C2_witness :
    xorAt [253, 217, 49, 0, 0, 0]
        (xor8_pos 12994781566227106604 2 10)
      = fingerprint 12994781566227106604 10 :=
  ((claim_C2_contain_equation.1
      (Xor8.mk 12994781566227106604 2 [253, 217, 49, 0, 0, 0]) 10).1).mp
    (by decide)

/-- C3: for both variants, populate returns false iff the handle is
null, or the key array is null, or the underlying construction fails;
in every other case (construction succeeded) it returns true. -/
theorem claim_C3_populate_flag :
    (∀ (h : Option Xor8) (keys : Option (List Nat)),
      ((xor8_populate_wrapper h keys).1 = false ↔
        h = none ∨ keys = none ∨
          ∃ f ks, h = some f ∧ keys = some ks ∧
            xor8_buffered_populate ks f = none)) ∧
    (∀ (f : Xor8) (ks : List Nat) (f2 : Xor8),
      xor8_buffered_populate ks f = some f2 →
      (xor8_populate_wrapper (some f) (some ks)).1 = true) ∧
    (∀ (h : Option Fuse8) (keys : Option (List Nat)),
      ((binary_fuse8_populate_wrapper h keys).1 = false ↔
        h = none ∨ keys = none ∨
          ∃ f ks, h = some f ∧ keys = some ks ∧
            binary_fuse8_populate ks f = none)) ∧
    (∀ (f : Fuse8) (ks : List Nat) (f2 : Fuse8),
      binary_fuse8_populate ks f = some f2 →
      (binary_fuse8_populate_wrapper (some f) (some ks)).1 = true) := by
  refine ⟨?_, ?_, ?_, ?_⟩
  · intro h keys
    cases h with
    | none => simp [xor8_populate_wrapper]
    | some f =>
      cases keys with
      | none => simp [xor8_populate_wrapper]
      | some ks =>
        cases hcore : xor8_buffered_populate ks f with
        | none => simp [xor8_populate_wrapper, hcore]
        | some f2 => simp [xor8_populate_wrapper, hcore]
  · intro f ks f2 hcore
    simp [xor8_populate_wrapper, hcore]
  · intro h keys
    cases h with
    | none => simp [binary_fuse8_populate_wrapper]
    | some f =>
      cases keys with
      | none => simp [binary_fuse8_populate_wrapper]
      | some ks =>
        cases hcore : binary_fuse8_populate ks f with
        | none => simp [binary_fuse8_populate_wrapper, hcore]
        | some f2 => simp [binary_fuse8_populate_wrapper, hcore]
  · intro f ks f2 hcore
    simp [binary_fuse8_populate_wrapper, hcore]

/-- C3 witness: the false cases (null handle, null keys, failing
construction with duplicate keys) and a true case, concretely. -/
theorem claim_C3_witness :
    (xor8_populate_wrapper none (some [1])).1 = false ∧
    (xor8_populate_wrapper (some (Xor8.mk 0 1 [0, 0, 0])) none).1 = false ∧
    (xor8_populate_wrapper (some (Xor8.mk 0 2 [0, 0, 0, 0, 0, 0]))
      (some [10, 20, 30])).1 = true :=
  ⟨(claim_C3_populate_flag.1 none (some [1])).mpr (Or.inl rfl),
   (claim_C3_populate_flag.1 (some (Xor8.mk 0 1 [0, 0, 0])) none).mpr
     (Or.inr (Or.inl rfl)),
   claim_C3_populate_flag.2.1 (Xor8.mk 0 2 [0, 0, 0, 0, 0, 0]) [10, 20, 30]
     (Xor8.mk 12994781566227106604 2 [253, 217, 49, 0, 0, 0]) (by decide)⟩

/-- C4: for both variants and every key, contain on a null handle
returns false, size_in_bytes on a null handle returns 0, and free on a
null handle is a no-op; the null branch of each wrapper is independent
of the underlying filter routine (it is never invoked). -/
theorem claim_C4_null_handling :
    (∀ k : Nat, xor8_contain_wrapper none k = false) ∧
    xor8_size_in_bytes_wrapper none = 0 ∧
    (∀ live : List Xor8, xor8_free_wrapper none live = live) ∧
    (∀ k : Nat, binary_fuse8_contain_wrapper none k = false) ∧
    binary_fuse8_size_in_bytes_wrapper none = 0 ∧
    (∀ live : List Fuse8, binary_fuse8_free_wrapper none live = live) ∧
    xor8_contain_wrapper = containG (fun f k => xor8_contain k f) ∧
    xor8_size_in_bytes_wrapper = sizeG xor8_size_in_bytes ∧
    xor8_free_wrapper = freeG ∧
    binary_fuse8_contain_wrapper
      = containG (fun f k => binary_fuse8_contain k f) ∧
    binary_fuse8_size_in_bytes_wrapper = sizeG binary_fuse8_size_in_bytes ∧
    binary_fuse8_free_wrapper = freeG ∧
    (∀ (core : Xor8 → Nat → Bool) (k : Nat), containG core none k = false) ∧
    (∀ core : Xor8 → Nat, sizeG core none = 0) ∧
    (∀ (core : Fuse8 → Nat → Bool) (k : Nat), containG core none k = false) ∧
    (∀ core : Fuse8 → Nat, sizeG core none = 0) := by
  refine ⟨fun _ => rfl, rfl, fun _ => rfl, fun _ => rfl, rfl, fun _ => rfl,
    ?_, ?_, ?_, ?_, ?_, ?_,
    fun _ _ => rfl, fun _ => rfl, fun _ _ => rfl, fun _ => rfl⟩
  all_goals
    funext h
    first
      | (cases h <;> rfl)
      | (funext x; cases h <;> rfl)

/-- C5: construction is deterministic — populate depends only on the
filter's stored seed and geometry and on the key sequence, and two runs
with the same inputs produce identical slot arrays and identical contain
results for every key. -/
theorem claim_C5_determinism :
    (∀ (f g : Xor8) (keys : List Nat),
      f.seed = g.seed → f.blockLength = g.blockLength →
      xor8_buffered_populate keys f = xor8_buffered_populate keys g) ∧
    (∀ (f : Xor8) (keys : List Nat) (f1 f2 : Xor8),
      xor8_buffered_populate keys f = some f1 →
      xor8_buffered_populate keys f = some f2 →
      f1.fingerprints = f2.fingerprints ∧
        ∀ k, xor8_contain k f1 = xor8_contain k f2) ∧
    (∀ (f g : Fuse8) (keys : List Nat),
      f.seed = g.seed → f.segmentLength = g.segmentLength →
      f.segmentCount = g.segmentCount →
      binary_fuse8_populate keys f = binary_fuse8_populate keys g) ∧
    (∀ (f : Fuse8) (keys : List Nat) (f1 f2 : Fuse8),
      binary_fuse8_populate keys f = some f1 →
      binary_fuse8_populate keys f = some f2 →
      f1.fingerprints = f2.fingerprints ∧
        ∀ k, binary_fuse8_contain k f1 = binary_fuse8_contain k f2) := by
  refine ⟨?_, ?_, ?_, ?_⟩
  · intro f g keys h1 h2
    obtain ⟨s, bl, fps⟩ := f
    obtain ⟨s2, bl2, fps2⟩ := g
    simp only at h1 h2
    subst h1; subst h2
    rfl
  · intro f keys f1 f2 h1 h2
    obtain rfl : f1 = f2 := by
      have := h1.symm.trans h2
      simpa using this
    exact ⟨rfl, fun _ => rfl⟩
  · intro f g keys h1 h2 h3
    obtain ⟨s, sl, sc, fps⟩ := f
    obtain ⟨s2, sl2, sc2, fps2⟩ := g
    simp only at h1 h2 h3
    subst h1; subst h2; subst h3
    rfl
  · intro f keys f1 f2 h1 h2
    obtain rfl : f1 = f2 := by
      have := h1.symm.trans h2
      simpa using this
    exact ⟨rfl, fun _ => rfl⟩

/-- C5 witness: two populate runs from filters agreeing on seed and
geometry but with different table contents coincide, concretely. -/
theorem claim_C5_witness :
    xor8_buffered_populate [7, 8] (Xor8.mk 3 2 [0, 0, 0, 0, 0, 0])
      = xor8_buffered_populate [7, 8] (Xor8.mk 3 2 [9, 9, 9, 9, 9, 9]) ∧
    binary_fuse8_populate [7, 8] (Fuse8.mk 3 1 4 [0, 0, 0, 0, 0, 0])
      = binary_fuse8_populate [7, 8] (Fuse8.mk 3 1 4 [5, 5, 5, 5, 5, 5]) :=
  ⟨claim_C5_determinism.1 (Xor8.mk 3 2 [0, 0, 0, 0, 0, 0])
      (Xor8.mk 3 2 [9, 9, 9, 9, 9, 9]) [7, 8] (by decide) (by decide),
   claim_C5_determinism.2.2.1 (Fuse8.mk 3 1 4 [0, 0, 0, 0, 0, 0])
      (Fuse8.mk 3 1 4 [5, 5, 5, 5, 5, 5]) [7, 8] (by decide) (by decide)
      (by decide)⟩

theorem xor8_populate_none_iff (f : Xor8) (keys : List Nat) :
    xor8_buffered_populate keys f = none ↔
      ∀ i < MAX_ITERATIONS,
        tryConstruct (xor8_pos (attemptSeed f.seed i) f.blockLength)
          (fingerprint (attemptSeed f.seed i)) (3 * f.blockLength) keys
          = none := by
  constructor
  · intro h i hi
    unfold xor8_buffered_populate at h
    cases hloop : populateLoop (fun i =>
        match tryConstruct (xor8_pos (attemptSeed f.seed i) f.blockLength)
            (fingerprint (attemptSeed f.seed i)) (3 * f.blockLength) keys with
        | none => none
        | some slots => some (attemptSeed f.seed i, slots))
        MAX_ITERATIONS 0 with
    | some pr => obtain ⟨a, b⟩ := pr; simp only [hloop] at h; exact Option.noConfusion h
    | none =>
      have h2 := (populateLoop_none_iff _ MAX_ITERATIONS 0).mp hloop i hi
      rw [Nat.zero_add] at h2
      cases htry : tryConstruct (xor8_pos (attemptSeed f.seed i) f.blockLength)
          (fingerprint (attemptSeed f.seed i)) (3 * f.blockLength) keys with
      | none => rfl
      | some slots => simp only [htry] at h2; exact Option.noConfusion h2
  · intro h
    unfold xor8_buffered_populate
    have hloop : populateLoop (fun i =>
        match tryConstruct (xor8_pos (attemptSeed f.seed i) f.blockLength)
            (fingerprint (attemptSeed f.seed i)) (3 * f.blockLength) keys with
        | none => none
        | some slots => some (attemptSeed f.seed i, slots))
        MAX_ITERATIONS 0 = none := by
      refine (populateLoop_none_iff _ _ 0).mpr ?_
      intro j hj
      rw [Nat.zero_add]
      simp only [h j hj]
    simp only [hloop]

theorem fuse8_populate_none_iff (f : Fuse8) (keys : List Nat) :
    binary_fuse8_populate keys f = none ↔
      ∀ i < MAX_ITERATIONS,
        tryConstruct
          (fuse8_pos (attemptSeed f.seed i) f.segmentLength f.segmentCount)
          (fingerprint (attemptSeed f.seed i))
          (fuse8_arraySize f.segmentLength f.segmentCount) keys = none := by
  constructor
  · intro h i hi
    unfold binary_fuse8_populate at h
    cases hloop : populateLoop (fun i =>
        match tryConstruct
            (fuse8_pos (attemptSeed f.seed i) f.segmentLength f.segmentCount)
            (fingerprint (attemptSeed f.seed i))
            (fuse8_arraySize f.segmentLength f.segmentCount) keys with
        | none => none
        | some slots => some (attemptSeed f.seed i, slots))
        MAX_ITERATIONS 0 with
    | some pr => obtain ⟨a, b⟩ := pr; simp only [hloop] at h; exact Option.noConfusion h
    | none =>
      have h2 := (populateLoop_none_iff _ MAX_ITERATIONS 0).mp hloop i hi
      rw [Nat.zero_add] at h2
      cases htry : tryConstruct
          (fuse8_pos (attemptSeed f.seed i) f.segmentLength f.segmentCount)
          (fingerprint (attemptSeed f.seed i))
          (fuse8_arraySize f.segmentLength f.segmentCount) keys with
      | none => rfl
      | some slots => simp only [htry] at h2; exact Option.noConfusion h2
  · intro h
    unfold binary_fuse8_populate
    have hloop : populateLoop (fun i =>
        match tryConstruct
            (fuse8_pos (attemptSeed f.seed i) f.segmentLength f.segmentCount)
            (fingerprint (attemptSeed f.seed i))
            (fuse8_arraySize f.segmentLength f.segmentCount) keys with
        | none => none
        | some slots => some (attemptSeed f.seed i, slots))
        MAX_ITERATIONS 0 = none := by
      refine (populateLoop_none_iff _ _ 0).mpr ?_
      intro j hj
      rw [Nat.zero_add]
      simp only [h j hj]
    simp only [hloop]

/-- C6: for every key set, populate terminates through a retry loop
bounded by the fixed constant MAX_ITERATIONS = 100 ≤ 100; construction
is declared failed exactly when all bounded attempts fail, rather than
retrying indefinitely. -/
theorem claim_C6_retry_bound :
    MAX_ITERATIONS = 100 ∧ MAX_ITERATIONS ≤ 100 ∧
    (∀ (f : Xor8) (keys : List Nat),
      xor8_buffered_populate keys f = none ↔
        ∀ i < MAX_ITERATIONS,
          tryConstruct (xor8_pos (attemptSeed f.seed i) f.blockLength)
            (fingerprint (attemptSeed f.seed i)) (3 * f.blockLength) keys
            = none) ∧
    (∀ (f : Fuse8) (keys : List Nat),
      binary_fuse8_populate keys f = none ↔
        ∀ i < MAX_ITERATIONS,
          tryConstruct
            (fuse8_pos (attemptSeed f.seed i) f.segmentLength f.segmentCount)
            (fingerprint (attemptSeed f.seed i))
            (fuse8_arraySize f.segmentLength f.segmentCount) keys
            = none) :=
  ⟨rfl, Nat.le_refl _, xor8_populate_none_iff, fuse8_populate_none_iff⟩

/-- C6 witness: a duplicate-key input, on which every attempt fails, is
declared failed after the bounded number of attempts. -/
theorem claim_C6_witness :
    xor8_buffered_populate [5, 5] (Xor8.mk 0 1 [0, 0, 0]) = none :=
  (claim_C6_retry_bound.2.2.1 (Xor8.mk 0 1 [0, 0, 0]) [5, 5]).mpr
    (by decide)

/-- C7: for both variants, allocate returns a null handle exactly when
the handle malloc or the backing-table allocation fails; each allocation
oracle is consulted exactly once (no retry); on success the returned
handle is the fully initialised filter. -/
theorem claim_C7_allocate_null :
    (∀ (size : Nat) (mOk cOk : Bool),
      (xor8_allocate_wrapper size mOk cOk = none ↔
        mOk = false ∨ cOk = false)) ∧
    (∀ (size : Nat) (mOk cOk : Bool) (f : Xor8),
      xor8_allocate_wrapper size mOk cOk = some f →
      f = Xor8.mk 0 (xor8_capacity size / 3)
        (List.replicate (xor8_capacity size) 0)) ∧
    (∀ (size : Nat) (mOk cOk : Bool),
      (binary_fuse8_allocate_wrapper size mOk cOk = none ↔
        mOk = false ∨ cOk = false)) ∧
    (∀ (size : Nat) (mOk cOk : Bool) (f : Fuse8),
      binary_fuse8_allocate_wrapper size mOk cOk = some f →
      f = Fuse8.mk 0 (fuse8_segmentLength size) (fuse8_segmentCount size)
        (List.replicate
          (fuse8_arraySize (fuse8_segmentLength size)
            (fuse8_segmentCount size)) 0)) := by
  refine ⟨?_, ?_, ?_, ?_⟩
  · intro size mOk cOk
    cases mOk <;> cases cOk <;>
      simp [xor8_allocate_wrapper, xor8_allocate]
  · intro size mOk cOk f h
    exact xor8_allocate_wrapper_some h
  · intro size mOk cOk
    cases mOk <;> cases cOk <;>
      simp [binary_fuse8_allocate_wrapper, binary_fuse8_allocate]
  · intro size mOk cOk f h
    exact binary_fuse8_allocate_wrapper_some h

/-- C7 witness: concrete failing and succeeding allocations. -/
theorem claim_C7_witness :
    xor8_allocate_wrapper 4 false true = none ∧
    xor8_allocate_wrapper 4 true false = none ∧
    Fuse8.mk 0 2 3 (List.replicate 10 0)
      = Fuse8.mk 0 (fuse8_segmentLength 4) (fuse8_segmentCount 4)
          (List.replicate
            (fuse8_arraySize (fuse8_segmentLength 4) (fuse8_segmentCount 4))
            0) :=
  ⟨(claim_C7_allocate_null.1 4 false true).mpr (Or.inl rfl),
   (claim_C7_allocate_null.1 4 true false).mpr (Or.inr rfl),
   claim_C7_allocate_null.2.2.2 4 true true
     (Fuse8.mk 0 2 3 (List.replicate 10 0)) (by decide)⟩

/-- C8: for every non-null handle, size_in_bytes returns exactly the
table length × 1 byte plus the fixed header bytes, matching the actual
allocation, in particular for table sizes derived from key counts
n = 0, 1, 1000, 1000000. -/
theorem claim_C8_size_exact :
    (∀ f : Xor8, xor8_size_in_bytes_wrapper (some f)
      = f.fingerprints.length + XOR8_HEADER_BYTES) ∧
    (∀ f : Fuse8, binary_fuse8_size_in_bytes_wrapper (some f)
      = f.fingerprints.length + FUSE8_HEADER_BYTES) ∧
    (∀ (size : Nat) (mOk cOk : Bool) (f : Xor8),
      xor8_allocate_wrapper size mOk cOk = some f →
      xor8_size_in_bytes_wrapper (some f)
        = xor8_capacity size + XOR8_HEADER_BYTES) ∧
    (∀ (size : Nat) (mOk cOk : Bool) (f : Fuse8),
      binary_fuse8_allocate_wrapper size mOk cOk = some f →
      binary_fuse8_size_in_bytes_wrapper (some f)
        = fuse8_arraySize (fuse8_segmentLength size) (fuse8_segmentCount size)
            + FUSE8_HEADER_BYTES) ∧
    xor8_capacity 0 = 0 ∧ xor8_capacity 1 = 3 ∧
    xor8_capacity 1000 = 1230 ∧ xor8_capacity 1000000 = 1230000 ∧
    fuse8_arraySize (fuse8_segmentLength 0) (fuse8_segmentCount 0) = 3 ∧
    fuse8_arraySize (fuse8_segmentLength 1) (fuse8_segmentCount 1) = 5 ∧
    fuse8_arraySize (fuse8_segmentLength 1000) (fuse8_segmentCount 1000)
      = 1168 ∧
    fuse8_arraySize (fuse8_segmentLength 1000000)
      (fuse8_segmentCount 1000000) = 1126400 := by
  refine ⟨fun f => rfl, fun f => rfl, ?_, ?_,
    by decide, by decide, by decide, by decide,
    by decide, by decide, by decide, by decide⟩
  · intro size mOk cOk f h
    rw [xor8_allocate_wrapper_some h]
    show List.length (List.replicate (xor8_capacity size) 0)
        + XOR8_HEADER_BYTES = _
    rw [List.length_replicate]
  · intro size mOk cOk f h
    rw [binary_fuse8_allocate_wrapper_some h]
    show List.length (List.replicate
        (fuse8_arraySize (fuse8_segmentLength size) (fuse8_segmentCount size))
        0) + FUSE8_HEADER_BYTES = _
    rw [List.length_replicate]

/-- C8 witness: the size of a concrete allocated filter. -/
theorem claim_C8_witness :
    xor8_size_in_bytes_wrapper (some (Xor8.mk 0 1 [0, 0, 0])) = 19 :=
  (claim_C8_size_exact.2.2.1 1 true true (Xor8.mk 0 1 [0, 0, 0])
    (by decide)).trans (by decide)

/-- C9: after construction the filter state is immutable — any sequence
of contain and size_in_bytes calls, in any order with any keys, leaves
every field of the filter unchanged. -/
theorem claim_C9_immutable :
    (∀ (f : Xor8) (ops : List QOp), xor8_runOps f ops = f) ∧
    (∀ (f : Xor8) (k : Nat), (xor8_contain_st f k).2 = f) ∧
    (∀ f : Xor8, (xor8_size_st f).2 = f) ∧
    (∀ (f : Xor8) (ops : List QOp),
      (xor8_runOps f ops).seed = f.seed ∧
      (xor8_runOps f ops).blockLength = f.blockLength ∧
      (xor8_runOps f ops).fingerprints = f.fingerprints) ∧
    (∀ (f : Fuse8) (ops : List QOp), binary_fuse8_runOps f ops = f) ∧
    (∀ (f : Fuse8) (k : Nat), (binary_fuse8_contain_st f k).2 = f) ∧
    (∀ f : Fuse8, (binary_fuse8_size_st f).2 = f) ∧
    (∀ (f : Fuse8) (ops : List QOp),
      (binary_fuse8_runOps f ops).seed = f.seed ∧
      (binary_fuse8_runOps f ops).segmentLength = f.segmentLength ∧
      (binary_fuse8_runOps f ops).segmentCount = f.segmentCount ∧
      (binary_fuse8_runOps f ops).fingerprints = f.fingerprints) := by
  have hx : ∀ (f : Xor8) (ops : List QOp), xor8_runOps f ops = f := by
    intro f ops
    induction ops generalizing f with
    | nil => rfl
    | cons op ops ih =>
      cases op with
      | qcontain k => exact ih f
      | qsize => exact ih f
  have hf : ∀ (f : Fuse8) (ops : List QOp),
      binary_fuse8_runOps f ops = f := by
    intro f ops
    induction ops generalizing f with
    | nil => rfl
    | cons op ops ih =>
      cases op with
      | qcontain k => exact ih f
      | qsize => exact ih f
  refine ⟨hx, fun _ _ => rfl, fun _ => rfl, ?_, hf, fun _ _ => rfl,
    fun _ => rfl, ?_⟩
  · intro f ops
    rw [hx f ops]
    exact ⟨rfl, rfl, rfl⟩
  · intro f ops
    rw [hf f ops]
    exact ⟨rfl, rfl, rfl, rfl⟩

/-- C10: for non-null handle and key array, the populate wrapper returns
exactly the underlying populate routine's verdict on the same keys,
unmodified, and performs no check relating the key count to the expected
key count given to allocate — a mismatch is passed through. -/
theorem claim_C10_passthrough :
    (∀ (f : Xor8) (ks : List Nat),
      xor8_populate_wrapper (some f) (some ks)
        = ((xor8_buffered_populate ks f).isSome,
            some ((xor8_buffered_populate ks f).getD f))) ∧
    (∀ (size : Nat) (mOk cOk : Bool) (f : Xor8) (ks : List Nat),
      xor8_allocate_wrapper size mOk cOk = some f →
      ks.length ≠ size →
      (xor8_populate_wrapper (some f) (some ks)).1
        = (xor8_buffered_populate ks f).isSome) ∧
    (∀ (f : Fuse8) (ks : List Nat),
      binary_fuse8_populate_wrapper (some f) (some ks)
        = ((binary_fuse8_populate ks f).isSome,
            some ((binary_fuse8_populate ks f).getD f))) ∧
    (∀ (size : Nat) (mOk cOk : Bool) (f : Fuse8) (ks : List Nat),
      binary_fuse8_allocate_wrapper size mOk cOk = some f →
      ks.length ≠ size →
      (binary_fuse8_populate_wrapper (some f) (some ks)).1
        = (binary_fuse8_populate ks f).isSome) := by
  have hx : ∀ (f : Xor8) (ks : List Nat),
      xor8_populate_wrapper (some f) (some ks)
        = ((xor8_buffered_populate ks f).isSome,
            some ((xor8_buffered_populate ks f).getD f)) := by
    intro f ks
    unfold xor8_populate_wrapper
    cases hcore : xor8_buffered_populate ks f with
    | none => simp [hcore]
    | some f2 => simp [hcore]
  have hf : ∀ (f : Fuse8) (ks : List Nat),
      binary_fuse8_populate_wrapper (some f) (some ks)
        = ((binary_fuse8_populate ks f).isSome,
            some ((binary_fuse8_populate ks f).getD f)) := by
    intro f ks
    unfold binary_fuse8_populate_wrapper
    cases hcore : binary_fuse8_populate ks f with
    | none => simp [hcore]
    | some f2 => simp [hcore]
  refine ⟨hx, ?_, hf, ?_⟩
  · intro size mOk cOk f ks _ _
    rw [hx]
  · intro size mOk cOk f ks _ _
    rw [hf]

/-- C10 witness: a filter allocated for 3 keys is populated with 2 keys
(a count mismatch) and the wrapper still reports exactly the core
routine's verdict. -/
theorem claim_C10_witness :
    (xor8_populate_wrapper (some (Xor8.mk 0 2 [0, 0, 0, 0, 0, 0]))
        (some [44, 55])).1
      = (xor8_buffered_populate [44, 55]
          (Xor8.mk 0 2 [0, 0, 0, 0, 0, 0])).isSome :=
  claim_C10_passthrough.2.1 3 true true (Xor8.mk 0 2 [0, 0, 0, 0, 0, 0])
    [44, 55] (by decide) (by decide)

end FastFilter
